import Mathlib

/-!
Shallow embedding of `mtpy/core/edi_collection.py` (class `EdiCollection` and
the module-level helper `is_it_in`).

Modelling conventions:
* Python floats are modelled as `ℚ` (the module's arithmetic is +, *, /, abs
  and comparisons, all exact on the inputs considered).
* `numpy` arrays of floats are modelled as `List ℚ`; elementwise `1.0 / arr`
  becomes `List.map (fun f => 1 / f)`.
* Python's built-in `sorted` is a stable sort; we model it with the verified
  stable `List.mergeSort` of the core library.  `sorted(l, reverse=True)` is
  modelled by `mergeSort` with the flipped comparator, which is also stable
  descending, exactly as CPython (reverse-before-and-after an ascending
  stable sort).
* `sorted(list(set(l)))` is modelled as `mergeSort` of `l.dedup`: both sides
  are the unique ascending duplicate-free enumeration of the values of `l`.
* A CPython dict (3.7+: insertion ordered) keyed by floats is modelled as an
  association list `List (ℚ × ℕ)` with `dictUpdate` reproducing
  `d.update({k: v})`: replace in place if the key is present, else append.
* `logger.warn` calls are modelled as emitted `WarnEvent` values so that the
  logging behaviour is part of the function's result.
* The per-station object `mt_obj` (class `mt.MT`) is a collaborator; the code
  reads only the attributes listed in `Station` below, so `Station` carries
  exactly those: `Z.freq`, the phase-tensor rows `pt.phimin[0]`,
  `pt.phimax[0]`, `pt.azimuth[0]`, `pt.beta[0]`, `pt.ellipticity[0]`, and the
  tipper series `Tipper.mag_real/mag_imag/angle_real/angle_imag`.
-/

/-- One per-station record, holding the attributes of an `mt.MT` object that
`edi_collection.py` reads. -/
structure Station where
  station : String
  lon : ℚ
  lat : ℚ
  elev : ℚ
  freq : List ℚ
  phimin : List ℚ
  phimax : List ℚ
  azimuth : List ℚ
  beta : List ℚ
  ellipticity : List ℚ
  mag_real : List ℚ
  mag_imag : List ℚ
  angle_real : List ℚ
  angle_imag : List ℚ
  deriving Repr, DecidableEq

/-- `is_it_in(anum, aseq)` from `edi_collection.py`: linear scan returning
`True` as soon as some element is strictly within `tolerance = 0.00001` of
`anum`, else `False` after the loop. -/
def is_it_in (anum : ℚ) : List ℚ → Bool
  | [] => false
  | an_number :: rest =>
      if |anum - an_number| < 1 / 100000 then true else is_it_in anum rest

/-- Python's stable ascending `sorted` on floats. -/
def pySorted (l : List ℚ) : List ℚ := l.mergeSort (fun a b => decide (a ≤ b))

/-- Python's `sorted(l, reverse=True)`: stable descending sort. -/
def pySortedRev (l : List ℚ) : List ℚ := l.mergeSort (fun a b => decide (b ≤ a))

/-- The body of `EdiCollection._get_all_periods` when the cache is cold:
concatenate every station's `Z.freq`, dedup-and-sort ascending
(`sorted(list(set(all_freqs)))`), then take reciprocals in descending
frequency order (`1.0 / np.array(sorted(self.all_frequencies, reverse=True))`).
Returns `(all_frequencies, all_periods)`. -/
def all_frequencies_of (mt_obj_list : List Station) : List ℚ :=
  pySorted (mt_obj_list.flatMap (fun mt_obj => mt_obj.freq)).dedup

def computeAllPeriods (mt_obj_list : List Station) : List ℚ × List ℚ :=
  (all_frequencies_of mt_obj_list,
    (pySortedRev (all_frequencies_of mt_obj_list)).map (fun f => 1 / f))

/-- `EdiCollection._get_all_periods` with its memo guard: the method first
checks `if self.all_frequencies is not None: return` (a bare `return`,
i.e. Python `None`).  State is the `all_frequencies` attribute
(`none` = Python `None`); the result is the returned value (`none` = Python
`None`) paired with the new state. -/
def get_all_periods (mt_obj_list : List Station) :
    Option (List ℚ) → Option (List ℚ) × Option (List ℚ)
  | some fs => (none, some fs)
  | none =>
      let r := computeAllPeriods mt_obj_list
      (some r.2, some r.1)

/-- The bounding-box dictionary built by `EdiCollection.get_bounding_box`
from `geopdf.total_bounds`. -/
structure BBox where
  MinLon : ℚ
  MinLat : ℚ
  MaxLon : ℚ
  MaxLat : ℚ
  deriving Repr, DecidableEq

/-- One accumulation step of the bounds computation. -/
def bboxStep (b : BBox) (t : Station) : BBox :=
  ⟨min b.MinLon t.lon, min b.MinLat t.lat,
   max b.MaxLon t.lon, max b.MaxLat t.lat⟩

/-- `geopandas' total_bounds` over the station points `(lon, lat)` (non-empty
case): componentwise min/max of all coordinates. -/
def total_bounds : List Station → BBox
  | [] => ⟨0, 0, 0, 0⟩
  | s :: rest => rest.foldl bboxStep ⟨s.lon, s.lat, s.lon, s.lat⟩

/-- The collection object, with the derived attributes `__init__` computes
eagerly. -/
structure EdiCollection where
  mt_obj_list : List Station
  num_of_edifiles : ℕ
  ptol : ℚ
  all_frequencies : List ℚ
  all_periods : List ℚ
  bound_box_dict : BBox
  deriving Repr, DecidableEq

/-- The failure of `assert len(self.edifiles) > 0` in the constructor; the
spec names it `EmptyInputError`. -/
structure EmptyInputError where
  deriving Repr, DecidableEq

/-- `EdiCollection.__init__(edilist, ptol=0.05)`: asserts the list is
non-empty, stores the station records, and eagerly computes
`all_frequencies`, `all_periods` (via `_get_all_periods` with the attribute
initialised to `None`) and the bounding box.  A failed assertion means no
object is produced, modelled by `Except.error`. -/
def EdiCollection.build (edilist : List Station) (ptol : ℚ := 1 / 20) :
    Except EmptyInputError EdiCollection :=
  if edilist.length > 0 then
    let r := get_all_periods edilist none
    Except.ok
      { mt_obj_list := edilist
        num_of_edifiles := edilist.length
        ptol := ptol
        all_frequencies := r.2.getD []
        all_periods := r.1.getD []
        bound_box_dict := total_bounds edilist }
  else
    Except.error ⟨⟩

/-- `d.update({k: v})` on a CPython (insertion-ordered) dict: overwrite in
place when the key exists, otherwise append. -/
def dictUpdate (d : List (ℚ × ℕ)) (k : ℚ) (v : ℕ) : List (ℚ × ℕ) :=
  if d.any (fun p => p.1 = k) then
    d.map (fun p => if p.1 = k then (k, v) else p)
  else
    d ++ [(k, v)]

/-- The station count of `get_periods_by_stats` for one period: the number of
`mt_obj` with `is_it_in(1.0/aper, mt_obj.Z.freq)`. -/
def coverageCount (mt_obj_list : List Station) (aper : ℚ) : ℕ :=
  (mt_obj_list.filter (fun mt_obj => is_it_in (1 / aper) mt_obj.freq)).length

/-- One iteration of the first loop of `get_periods_by_stats`: insert
`(aper, acount)` when `100 * acount / num_of_edifiles >= percentage`,
otherwise only log (the period is ignored). -/
def statsStep (c : EdiCollection) (percentage : ℚ) (adict : List (ℚ × ℕ))
    (aper : ℚ) : List (ℚ × ℕ) :=
  let acount := coverageCount c.mt_obj_list aper
  if (100 * (acount : ℚ)) / (c.num_of_edifiles : ℚ) ≥ percentage then
    dictUpdate adict aper acount
  else
    adict

/-- The dict built by the first loop of `get_periods_by_stats`. -/
def statsDict (c : EdiCollection) (percentage : ℚ) : List (ℚ × ℕ) :=
  c.all_periods.foldl (statsStep c percentage) []

/-- The retention test of `get_periods_by_stats` as a Boolean predicate. -/
def retained (c : EdiCollection) (percentage : ℚ) (aper : ℚ) : Bool :=
  decide ((100 * (coverageCount c.mt_obj_list aper : ℚ)) /
    (c.num_of_edifiles : ℚ) ≥ percentage)

/-- `EdiCollection.get_periods_by_stats(percentage=50.0)`: sort the dict items
by count descending (`sorted(adict.items(), key=..., reverse=True)`, a stable
sort) and return the periods. -/
def get_periods_by_stats (c : EdiCollection) (percentage : ℚ := 50) : List ℚ :=
  ((statsDict c percentage).mergeSort (fun p q => decide (q.2 ≤ p.2))).map
    (fun pc => pc.1)

/-- A concrete station used to instantiate theorems with hypotheses. -/
def stW : Station :=
  { station := "W", lon := 3, lat := 4, elev := 0, freq := [1, 2],
    phimin := [10, 11], phimax := [20, 21], azimuth := [30, 31],
    beta := [5, 6], ellipticity := [7, 8],
    mag_real := [1, 1], mag_imag := [2, 2], angle_real := [3, 3],
    angle_imag := [4, 4] }

/-- The collection the constructor builds from `[stW]`. -/
def cW : EdiCollection :=
  { mt_obj_list := [stW]
    num_of_edifiles := 1
    ptol := 1 / 20
    all_frequencies := all_frequencies_of [stW]
    all_periods := (computeAllPeriods [stW]).2
    bound_box_dict := total_bounds [stW] }

/-- One row of the csv tables written by `create_csv_files_moved`, in the
order of `csv_header`. -/
structure PTRow where
  station : String
  freq : ℚ
  lon : ℚ
  lat : ℚ
  phi_min : ℚ
  phi_max : ℚ
  azimuth : ℚ
  skew : ℚ
  n_skew : ℚ
  elliptic : ℚ
  tip_mag_re : ℚ
  tip_mag_im : ℚ
  tip_ang_re : ℚ
  tip_ang_im : ℚ
  deriving Repr, DecidableEq

/-- The two `logger.warn` calls inside the station loop of
`create_csv_files_moved`. -/
inductive WarnEvent where
  | moreThanOneFreqFound (f_index_list : List ℕ) : WarnEvent
  | freqNotFound (freq : ℚ) (station : String) : WarnEvent
  deriving Repr, DecidableEq

/-- `f_index_list = [ff for ff, f2 in enumerate(mt_obj.Z.freq)
if (f2 > freq * (1 - self.ptol)) and (f2 < freq * (1 + self.ptol))]`. -/
def f_index_list (ptol freq : ℚ) (mt_obj : Station) : List ℕ :=
  ((mt_obj.freq.enum).filter
      (fun p => decide (p.2 > freq * (1 - ptol)) &&
        decide (p.2 < freq * (1 + ptol)))).map
    (fun p => p.1)

/-- The row `pt_stat` assembled at the selected index `p_index`
(`p_index = f_index_list[0]`). -/
def pt_stat (freq : ℚ) (mt_obj : Station) (p_index : ℕ) : PTRow :=
  { station := mt_obj.station
    freq := freq
    lon := mt_obj.lon
    lat := mt_obj.lat
    phi_min := mt_obj.phimin.getD p_index 0
    phi_max := mt_obj.phimax.getD p_index 0
    azimuth := mt_obj.azimuth.getD p_index 0
    skew := mt_obj.beta.getD p_index 0
    n_skew := 2 * mt_obj.beta.getD p_index 0
    elliptic := mt_obj.ellipticity.getD p_index 0
    tip_mag_re := mt_obj.mag_real.getD p_index 0
    tip_mag_im := mt_obj.mag_imag.getD p_index 0
    tip_ang_re := mt_obj.angle_real.getD p_index 0
    tip_ang_im := mt_obj.angle_imag.getD p_index 0 }

/-- The body of the station loop of `create_csv_files_moved`: warn when more
than one index matches; when at least one matches append the row built at
`f_index_list[0]`; otherwise warn that the frequency was not found for this
station. -/
def csvStationStep (ptol freq : ℚ) (acc : List PTRow × List WarnEvent)
    (mt_obj : Station) : List PTRow × List WarnEvent :=
  let idxs := f_index_list ptol freq mt_obj
  let warns :=
    if idxs.length > 1 then acc.2 ++ [WarnEvent.moreThanOneFreqFound idxs]
    else acc.2
  match idxs with
  | p_index :: _ => (acc.1 ++ [pt_stat freq mt_obj p_index], warns)
  | [] => (acc.1, warns ++ [WarnEvent.freqNotFound freq mt_obj.station])

/-- One iteration of the outer frequency loop: the `ptlist` for this
frequency together with the warnings it logs. -/
def ptlist_for (ptol freq : ℚ) (mt_obj_list : List Station) :
    List PTRow × List WarnEvent :=
  mt_obj_list.foldl (csvStationStep ptol freq) ([], [])

/-- `EdiCollection.create_csv_files_moved`: iterate over `all_frequencies`,
collecting `pt_dict` (frequency, in iteration order, mapped to its `ptlist`)
and all logged warnings.  The file writes themselves are I/O on the rows
modelled here. -/
def create_csv_files_moved (c : EdiCollection) :
    List (ℚ × List PTRow) × List WarnEvent :=
  c.all_frequencies.foldl
    (fun acc freq =>
      let r := ptlist_for c.ptol freq c.mt_obj_list
      (acc.1 ++ [(freq, r.1)], acc.2 ++ r.2))
    ([], [])

/-- The warnings one station contributes for one frequency. -/
def stationWarns (ptol freq : ℚ) (mt_obj : Station) : List WarnEvent :=
  (if (f_index_list ptol freq mt_obj).length > 1 then
      [WarnEvent.moreThanOneFreqFound (f_index_list ptol freq mt_obj)]
    else []) ++
    (if f_index_list ptol freq mt_obj = [] then
      [WarnEvent.freqNotFound freq mt_obj.station]
    else [])

/-- The row (if any) one station contributes for one frequency: the row built
at the FIRST matching index, none when no index matches. -/
def stationRow (ptol freq : ℚ) (mt_obj : Station) : Option PTRow :=
  ((f_index_list ptol freq mt_obj).head?).map (pt_stat freq mt_obj)

/-- Station with the single sampled frequency 1 Hz. -/
def stA : Station :=
  { station := "A", lon := 0, lat := 0, elev := 0, freq := [1],
    phimin := [0], phimax := [0], azimuth := [0], beta := [0],
    ellipticity := [0], mag_real := [0], mag_imag := [0], angle_real := [0],
    angle_imag := [0] }

/-- Station whose single sampled frequency 19/20 sits exactly on the lower
edge of the 5% tolerance window around 1 Hz. -/
def stB : Station :=
  { station := "B", lon := 1, lat := 1, elev := 0, freq := [19 / 20],
    phimin := [0], phimax := [0], azimuth := [0], beta := [0],
    ellipticity := [0], mag_real := [0], mag_imag := [0], angle_real := [0],
    angle_imag := [0] }

/-- The collection the constructor builds from `[stA, stB]`. -/
def cAB : EdiCollection :=
  { mt_obj_list := [stA, stB]
    num_of_edifiles := 2
    ptol := 1 / 20
    all_frequencies := all_frequencies_of [stA, stB]
    all_periods := (computeAllPeriods [stA, stB]).2
    bound_box_dict := total_bounds [stA, stB] }

/-- Station with the single sampled frequency 1 Hz (coverage scenario). -/
def stC : Station :=
  { station := "C", lon := 0, lat := 0, elev := 0, freq := [1],
    phimin := [0], phimax := [0], azimuth := [0], beta := [0],
    ellipticity := [0], mag_real := [0], mag_imag := [0], angle_real := [0],
    angle_imag := [0] }

/-- Station with sampled frequencies 1 Hz and 2 Hz (coverage scenario). -/
def stD : Station :=
  { station := "D", lon := 1, lat := 1, elev := 0, freq := [1, 2],
    phimin := [0, 0], phimax := [0, 0], azimuth := [0, 0], beta := [0, 0],
    ellipticity := [0, 0], mag_real := [0, 0], mag_imag := [0, 0],
    angle_real := [0, 0], angle_imag := [0, 0] }

/-- The collection the constructor builds from `[stC, stD]`. -/
def cCD : EdiCollection :=
  { mt_obj_list := [stC, stD]
    num_of_edifiles := 2
    ptol := 1 / 20
    all_frequencies := all_frequencies_of [stC, stD]
    all_periods := (computeAllPeriods [stC, stD]).2
    bound_box_dict := total_bounds [stC, stD] }

theorem leb_trans : ∀ a b c : ℚ, decide (a ≤ b) = true → decide (b ≤ c) = true →
    decide (a ≤ c) = true := by
  intro a b c hab hbc
  simp only [decide_eq_true_eq] at *
  exact le_trans hab hbc

theorem leb_total : ∀ a b : ℚ, (decide (a ≤ b) || decide (b ≤ a)) = true := by
  intro a b
  simpa using le_total a b

theorem geb_trans : ∀ a b c : ℚ, decide (b ≤ a) = true → decide (c ≤ b) = true →
    decide (c ≤ a) = true := by
  intro a b c hab hbc
  simp only [decide_eq_true_eq] at *
  exact le_trans hbc hab

theorem geb_total : ∀ a b : ℚ, (decide (b ≤ a) || decide (a ≤ b)) = true := by
  intro a b
  simpa using (le_total a b).symm

theorem pySorted_perm (l : List ℚ) : (pySorted l).Perm l :=
  List.mergeSort_perm l _

theorem pySorted_pairwise (l : List ℚ) : (pySorted l).Pairwise (· ≤ ·) :=
  (List.sorted_mergeSort leb_trans leb_total l).imp (fun h => of_decide_eq_true h)

theorem pySortedRev_perm (l : List ℚ) : (pySortedRev l).Perm l :=
  List.mergeSort_perm l _

theorem pySortedRev_pairwise (l : List ℚ) : (pySortedRev l).Pairwise (· ≥ ·) :=
  (List.sorted_mergeSort geb_trans geb_total l).imp (fun h => of_decide_eq_true h)

/-- A stable descending sort of an ascending-sorted list is its reverse. -/
theorem pySortedRev_of_sorted {l : List ℚ} (h : l.Pairwise (· ≤ ·)) :
    pySortedRev l = l.reverse := by
  haveI : IsAntisymm ℚ (· ≥ ·) := ⟨fun a b h1 h2 => le_antisymm h2 h1⟩
  refine List.eq_of_perm_of_sorted ?_ (pySortedRev_pairwise l) ?_
  · exact (pySortedRev_perm l).trans l.reverse_perm.symm
  · exact (List.pairwise_reverse).mpr h

theorem allFreq_nodup (l : List Station) : (all_frequencies_of l).Nodup := by
  unfold all_frequencies_of
  exact ((pySorted_perm _).nodup_iff).mpr
    ((l.flatMap (fun mt_obj => mt_obj.freq)).nodup_dedup)

theorem allFreq_sorted (l : List Station) : (all_frequencies_of l).Pairwise (· < ·) := by
  have hle := pySorted_pairwise (l.flatMap (fun mt_obj => mt_obj.freq)).dedup
  have hne := allFreq_nodup l
  exact (hle.and hne).imp (fun h => lt_of_le_of_ne h.1 h.2)

theorem allFreq_mem (l : List Station) (x : ℚ) :
    x ∈ all_frequencies_of l ↔ ∃ s ∈ l, x ∈ s.freq := by
  unfold all_frequencies_of
  rw [(pySorted_perm _).mem_iff, List.mem_dedup, List.mem_flatMap]

theorem allPeriods_eq (l : List Station) :
    (computeAllPeriods l).2 = (all_frequencies_of l).reverse.map (fun f => 1 / f) := by
  show (pySortedRev (all_frequencies_of l)).map _ = _
  rw [pySortedRev_of_sorted ((allFreq_sorted l).imp le_of_lt)]

theorem build_ok {l : List Station} {ptol : ℚ} {c : EdiCollection}
    (h : EdiCollection.build l ptol = Except.ok c) :
    c.mt_obj_list = l ∧ c.num_of_edifiles = l.length ∧ c.ptol = ptol ∧
      c.all_frequencies = all_frequencies_of l ∧
      c.all_periods = (computeAllPeriods l).2 ∧
      c.bound_box_dict = total_bounds l ∧ l ≠ [] := by
  unfold EdiCollection.build at h
  by_cases hl : l.length > 0
  · rw [if_pos hl] at h
    injection h with h
    subst h
    refine ⟨rfl, rfl, rfl, rfl, rfl, rfl, ?_⟩
    intro hnil
    simp [hnil] at hl
  · rw [if_neg hl] at h
    exact absurd h (by simp)


theorem build_stW : EdiCollection.build [stW] (1 / 20) = Except.ok cW := rfl

/-- C4 counterexample: with `x = 0` and `seq = [1e-5]` the element `1e-5`
lies within absolute distance `1e-5` of `x` (inclusively), yet `is_it_in`
returns `false`, because the code compares with a strict `<`. -/
theorem C4_counterexample :
    is_it_in 0 [1 / 100000] = false ∧
      ∃ a ∈ [(1 : ℚ) / 100000], |(0 : ℚ) - a| ≤ 1 / 100000 := by
  constructor
  · norm_num [is_it_in, abs_lt]
  · exact ⟨1 / 100000, by norm_num, by norm_num [abs_le]⟩

/-- C4 (amended): `is_it_in x seq` is `true` iff some element of `seq` lies
STRICTLY within absolute distance `1e-5` of `x`, and is `false` on the empty
sequence. -/
theorem C4_approximate_membership_strict :
    (∀ (x : ℚ) (seq : List ℚ),
        is_it_in x seq = true ↔ ∃ a ∈ seq, |x - a| < 1 / 100000) ∧
      ∀ x : ℚ, is_it_in x [] = false := by
  constructor
  · intro x seq
    induction seq with
    | nil => simp [is_it_in]
    | cons a rest ih =>
        by_cases h : |x - a| < 1 / 100000
        · simp only [is_it_in, if_pos h, true_iff]
          exact ⟨a, List.mem_cons_self a rest, h⟩
        · simp only [is_it_in, if_neg h]
          rw [ih]
          constructor
          · rintro ⟨b, hb, hlt⟩
            exact ⟨b, List.mem_cons_of_mem a hb, hlt⟩
          · rintro ⟨b, hb, hlt⟩
            rcases List.mem_cons.mp hb with rfl | hb'
            · exact absurd hlt h
            · exact ⟨b, hb', hlt⟩
  · intro x
    rfl

/-- C7: constructing from the empty list fails (the constructor's
`assert len(self.edifiles) > 0`, the spec's `EmptyInputError`) and no
collection is produced, while construction succeeds on every non-empty
list. -/
theorem C7_empty_input_error :
    (∀ ptol : ℚ, EdiCollection.build [] ptol = Except.error ⟨⟩) ∧
      ∀ (l : List Station) (ptol : ℚ), l ≠ [] →
        ∃ c, EdiCollection.build l ptol = Except.ok c := by
  constructor
  · intro ptol
    rfl
  · intro l ptol h
    unfold EdiCollection.build
    rw [if_pos (by simpa using List.length_pos.mpr h)]
    exact ⟨_, rfl⟩

theorem C7_witness :
    ([stW] : List Station) ≠ [] ∧
      ∃ c, EdiCollection.build [stW] (1 / 20) = Except.ok c :=
  ⟨by simp, C7_empty_input_error.2 [stW] (1 / 20) (by simp)⟩

theorem bbox_fold_invariant (rest : List Station) (b : BBox)
    (h1 : b.MinLon ≤ b.MaxLon) (h2 : b.MinLat ≤ b.MaxLat) :
    (rest.foldl bboxStep b).MinLon ≤ (rest.foldl bboxStep b).MaxLon ∧
      (rest.foldl bboxStep b).MinLat ≤ (rest.foldl bboxStep b).MaxLat := by
  induction rest generalizing b with
  | nil => exact ⟨h1, h2⟩
  | cons t rest ih =>
      refine ih (bboxStep b t) ?_ ?_
      · exact le_trans (min_le_left _ _) (le_trans h1 (le_max_left _ _))
      · exact le_trans (min_le_left _ _) (le_trans h2 (le_max_left _ _))

/-- C8: for any collection the constructor accepts, the bounding box
satisfies `MinLon <= MaxLon` and `MinLat <= MaxLat`; when the collection has
a single station the box collapses to a point. -/
theorem C8_bounding_box_invariant
    (l : List Station) (ptol : ℚ) (c : EdiCollection)
    (hok : EdiCollection.build l ptol = Except.ok c) :
    (c.bound_box_dict.MinLon ≤ c.bound_box_dict.MaxLon ∧
        c.bound_box_dict.MinLat ≤ c.bound_box_dict.MaxLat) ∧
      ∀ s : Station, l = [s] →
        c.bound_box_dict.MinLon = c.bound_box_dict.MaxLon ∧
          c.bound_box_dict.MinLat = c.bound_box_dict.MaxLat := by
  obtain ⟨-, -, -, -, -, hbb, hne⟩ := build_ok hok
  constructor
  · match l, hne with
    | s :: rest, _ =>
        rw [hbb]
        exact bbox_fold_invariant rest ⟨s.lon, s.lat, s.lon, s.lat⟩ le_rfl le_rfl
  · intro s hs
    subst hs
    rw [hbb]
    exact ⟨rfl, rfl⟩

theorem C8_witness :
    EdiCollection.build [stW] (1 / 20) = Except.ok cW ∧
      cW.bound_box_dict.MinLon = cW.bound_box_dict.MaxLon ∧
        cW.bound_box_dict.MinLat = cW.bound_box_dict.MaxLat :=
  ⟨build_stW,
    (C8_bounding_box_invariant [stW] (1 / 20) cW build_stW).2 stW rfl⟩

/-- C1: for any collection the constructor accepts whose station frequencies
are positive, `all_frequencies` is the ascending-sorted deduplicated union of
the stations' frequencies, `all_periods` has the same length, every entry of
`all_periods` is the reciprocal of the entry of `all_frequencies` at the
mirrored position, and `all_periods` is sorted ascending. -/
theorem C1_all_periods_reciprocal_of_reversed_frequencies
    (l : List Station) (ptol : ℚ) (c : EdiCollection)
    (hok : EdiCollection.build l ptol = Except.ok c)
    (hpos : ∀ s ∈ l, ∀ f ∈ s.freq, 0 < f) :
    c.all_frequencies.Pairwise (· < ·) ∧
      (∀ x : ℚ, x ∈ c.all_frequencies ↔ ∃ s ∈ l, x ∈ s.freq) ∧
      c.all_periods.length = c.all_frequencies.length ∧
      (∀ i, i < c.all_periods.length →
        ∃ f, c.all_frequencies[c.all_frequencies.length - 1 - i]? = some f ∧
          c.all_periods[i]? = some (1 / f)) ∧
      c.all_periods.Pairwise (· < ·) := by
  obtain ⟨-, -, -, hf, hp, -, -⟩ := build_ok hok
  have hmempos : ∀ x ∈ all_frequencies_of l, 0 < x := by
    intro x hx
    obtain ⟨s, hs, hxs⟩ := (allFreq_mem l x).mp hx
    exact hpos s hs x hxs
  refine ⟨?_, ?_, ?_, ?_, ?_⟩
  · rw [hf]
    exact allFreq_sorted l
  · intro x
    rw [hf]
    exact allFreq_mem l x
  · rw [hf, hp, allPeriods_eq]
    simp
  · intro i hi
    rw [hp, allPeriods_eq] at hi ⊢
    rw [hf]
    have hi' : i < (all_frequencies_of l).length := by simpa using hi
    have hj : (all_frequencies_of l).length - 1 - i <
        (all_frequencies_of l).length := by omega
    have him : i < ((all_frequencies_of l).reverse.map (fun f => 1 / f)).length := by
      simpa using hi'
    refine ⟨(all_frequencies_of l)[(all_frequencies_of l).length - 1 - i], ?_, ?_⟩
    · exact List.getElem?_eq_getElem hj
    · rw [List.getElem?_eq_getElem him]
      congr 1
      rw [List.getElem_map]
      exact congrArg _ (List.getElem_reverse (by simpa using hi'))
  · rw [hp, allPeriods_eq, List.pairwise_map]
    have hrev : (all_frequencies_of l).reverse.Pairwise (· > ·) :=
      (List.pairwise_reverse).mpr (allFreq_sorted l)
    refine List.Pairwise.imp_of_mem ?_ hrev
    intro a b ha hb hab
    have hbpos : 0 < b := hmempos b (List.mem_reverse.mp hb)
    exact one_div_lt_one_div_of_lt hbpos hab

theorem C1_witness :
    EdiCollection.build [stW] (1 / 20) = Except.ok cW ∧
      (∀ s ∈ [stW], ∀ f ∈ s.freq, (0 : ℚ) < f) ∧
      cW.all_periods.Pairwise (· < ·) :=
  ⟨build_stW, by norm_num [stW],
    (C1_all_periods_reciprocal_of_reversed_frequencies [stW] (1 / 20) cW
        build_stW (by norm_num [stW])).2.2.2.2⟩

/-- C9: `_get_all_periods` is NOT idempotent: after construction the
attribute `all_frequencies` is set, so the guard
`if self.all_frequencies is not None: return` makes a second invocation
return Python `None` (a bare `return`), not the periods array returned by
the first invocation. -/
theorem C9_second_call_returns_none :
    (get_all_periods [stW] none).1 = some (computeAllPeriods [stW]).2 ∧
      (get_all_periods [stW] (get_all_periods [stW] none).2).1 = none ∧
      (none : Option (List ℚ)) ≠ some (computeAllPeriods [stW]).2 := by
  refine ⟨rfl, rfl, ?_⟩
  simp


theorem csvStationStep_eq (ptol freq : ℚ) (acc : List PTRow × List WarnEvent)
    (mt_obj : Station) :
    csvStationStep ptol freq acc mt_obj =
      (acc.1 ++ (stationRow ptol freq mt_obj).toList,
        acc.2 ++ stationWarns ptol freq mt_obj) := by
  unfold csvStationStep stationRow stationWarns
  rcases h : f_index_list ptol freq mt_obj with _ | ⟨p, _ | ⟨q, rest⟩⟩ <;>
    simp [h]

theorem ptlist_for_spec (ptol freq : ℚ) (mt_obj_list : List Station) :
    ptlist_for ptol freq mt_obj_list =
      (mt_obj_list.flatMap (fun s => (stationRow ptol freq s).toList),
        mt_obj_list.flatMap (fun s => stationWarns ptol freq s)) := by
  suffices h : ∀ acc : List PTRow × List WarnEvent,
      mt_obj_list.foldl (csvStationStep ptol freq) acc =
        (acc.1 ++ mt_obj_list.flatMap (fun s => (stationRow ptol freq s).toList),
          acc.2 ++ mt_obj_list.flatMap (fun s => stationWarns ptol freq s)) by
    simpa [ptlist_for] using h ([], [])
  induction mt_obj_list with
  | nil => intro acc; simp
  | cons s rest ih =>
      intro acc
      rw [List.foldl_cons, csvStationStep_eq, ih]
      simp

theorem create_csv_spec (c : EdiCollection) :
    create_csv_files_moved c =
      (c.all_frequencies.map
          (fun freq => (freq, (ptlist_for c.ptol freq c.mt_obj_list).1)),
        c.all_frequencies.flatMap
          (fun freq => (ptlist_for c.ptol freq c.mt_obj_list).2)) := by
  suffices h : ∀ (fs : List ℚ) (acc : List (ℚ × List PTRow) × List WarnEvent),
      fs.foldl
          (fun acc freq =>
            let r := ptlist_for c.ptol freq c.mt_obj_list
            (acc.1 ++ [(freq, r.1)], acc.2 ++ r.2)) acc =
        (acc.1 ++ fs.map (fun freq => (freq, (ptlist_for c.ptol freq c.mt_obj_list).1)),
          acc.2 ++ fs.flatMap (fun freq => (ptlist_for c.ptol freq c.mt_obj_list).2)) by
    simpa [create_csv_files_moved] using h c.all_frequencies ([], [])
  intro fs
  induction fs with
  | nil => intro acc; simp
  | cons f rest ih =>
      intro acc
      rw [List.foldl_cons, ih]
      simp

theorem enumFrom_pairwise_fst {α : Type} (n : ℕ) (l : List α) :
    (List.enumFrom n l).Pairwise (fun p q => p.1 < q.1) := by
  induction l generalizing n with
  | nil => simp
  | cons a t ih =>
      rw [List.enumFrom_cons]
      refine List.Pairwise.cons ?_ (ih (n + 1))
      rintro ⟨i, x⟩ hq
      exact lt_of_lt_of_le (Nat.lt_succ_self n) (List.mem_enumFrom hq).1

/-- The candidate indices are produced in increasing sample order, so the
head of `f_index_list` is the first matching index. -/
theorem f_index_list_pairwise (ptol freq : ℚ) (mt_obj : Station) :
    (f_index_list ptol freq mt_obj).Pairwise (· < ·) := by
  unfold f_index_list
  rw [List.pairwise_map]
  exact List.Pairwise.filter _
    (by simpa [List.enum] using enumFrom_pairwise_fst 0 mt_obj.freq)

/-- C6: per (station, frequency), the export loop contributes no row when no
index matches (only a `freqNotFound` warning) and continues with the other
stations; when several indices match it logs `moreThanOneFreqFound` and
builds the row from the head of `f_index_list`, which by the last conjunct
is the first matching index in original sample order. -/
theorem C6_export_skip_and_first_match (ptol freq : ℚ)
    (mt_obj_list : List Station) :
    (ptlist_for ptol freq mt_obj_list).1 =
        mt_obj_list.flatMap (fun s => (stationRow ptol freq s).toList) ∧
      (ptlist_for ptol freq mt_obj_list).2 =
        mt_obj_list.flatMap (fun s => stationWarns ptol freq s) ∧
      ∀ s : Station, (f_index_list ptol freq s).Pairwise (· < ·) := by
  rw [ptlist_for_spec]
  exact ⟨rfl, rfl, fun s => f_index_list_pairwise ptol freq s⟩

/-- C5 (amended): an index is selected as a match iff its sample frequency
lies STRICTLY inside the OPEN interval
`(freq*(1-ptol), freq*(1+ptol))`. -/
theorem C5_open_interval_match (ptol freq : ℚ) (mt_obj : Station) (i : ℕ) :
    i ∈ f_index_list ptol freq mt_obj ↔
      ∃ f2, mt_obj.freq[i]? = some f2 ∧
        freq * (1 - ptol) < f2 ∧ f2 < freq * (1 + ptol) := by
  unfold f_index_list
  simp only [List.mem_map, List.mem_filter]
  constructor
  · rintro ⟨⟨j, f2⟩, ⟨hmem, hcond⟩, rfl⟩
    simp only [Bool.and_eq_true, decide_eq_true_eq] at hcond
    exact ⟨f2, List.mem_enum_iff_getElem?.mp hmem, hcond.1, hcond.2⟩
  · rintro ⟨f2, hget, h1, h2⟩
    exact ⟨(i, f2), ⟨List.mk_mem_enum_iff_getElem?.mpr hget,
      by simp only [Bool.and_eq_true, decide_eq_true_eq]; exact ⟨h1, h2⟩⟩, rfl⟩


theorem build_cAB : EdiCollection.build [stA, stB] (1 / 20) = Except.ok cAB :=
  rfl

/-- C5 counterexample: for the frequency `1` of `all_frequencies` and station
`stB`, sample 0 has frequency `19/20`, which lies in the CLOSED interval
`[1*(1-ptol), 1*(1+ptol)]`, yet the export selects no index for it — the code
compares with strict inequalities (open interval). -/
theorem C5_counterexample :
    (1 : ℚ) ∈ cAB.all_frequencies ∧
      stB.freq[0]? = some (19 / 20) ∧
      1 * (1 - cAB.ptol) ≤ 19 / 20 ∧ (19 / 20 : ℚ) ≤ 1 * (1 + cAB.ptol) ∧
      f_index_list cAB.ptol 1 stB = [] := by
  refine ⟨?_, rfl, by norm_num [cAB], by norm_num [cAB], ?_⟩
  · exact (allFreq_mem [stA, stB] 1).mpr ⟨stA, by simp, by simp [stA]⟩
  · show f_index_list (1 / 20) 1 stB = []
    norm_num [f_index_list, stB, List.enum, List.enumFrom, List.filter]

theorem stationRow_n_skew (ptol freq : ℚ) (s : Station) (r : PTRow)
    (h : r ∈ (stationRow ptol freq s).toList) : r.n_skew = 2 * r.skew := by
  rcases hh : (f_index_list ptol freq s).head? with - | p
  · rw [stationRow, hh] at h
    simp at h
  · rw [stationRow, hh] at h
    simp only [Option.map_some', Option.toList_some, List.mem_singleton] at h
    subst h
    rfl

/-- C10: every row the export emits has `n_skew` equal to twice `skew`;
both fields are built from the same `pt.beta[0][p_index]` value. -/
theorem C10_n_skew_twice_skew (c : EdiCollection) (freq : ℚ)
    (rows : List PTRow)
    (hmem : (freq, rows) ∈ (create_csv_files_moved c).1)
    (r : PTRow) (hr : r ∈ rows) :
    r.n_skew = 2 * r.skew := by
  rw [create_csv_spec] at hmem
  simp only [List.mem_map] at hmem
  obtain ⟨f0, -, heq⟩ := hmem
  injection heq with h1 h2
  subst h2
  rw [ptlist_for_spec] at hr
  simp only [List.mem_flatMap] at hr
  obtain ⟨s, -, hrow⟩ := hr
  exact stationRow_n_skew _ _ s r hrow

theorem C10_witness :
    ((1 : ℚ), (ptlist_for cW.ptol 1 cW.mt_obj_list).1) ∈
        (create_csv_files_moved cW).1 ∧
      pt_stat 1 stW 0 ∈ (ptlist_for cW.ptol 1 cW.mt_obj_list).1 ∧
      (pt_stat 1 stW 0).n_skew = 2 * (pt_stat 1 stW 0).skew := by
  have hone : (1 : ℚ) ∈ cW.all_frequencies :=
    (allFreq_mem [stW] 1).mpr ⟨stW, by simp, by simp [stW]⟩
  have hmem : ((1 : ℚ), (ptlist_for cW.ptol 1 cW.mt_obj_list).1) ∈
      (create_csv_files_moved cW).1 := by
    rw [create_csv_spec]
    exact List.mem_map.mpr ⟨1, hone, rfl⟩
  have hidx : f_index_list cW.ptol 1 stW = [0] := by
    show f_index_list (1 / 20) 1 stW = [0]
    norm_num [f_index_list, stW, List.enum, List.enumFrom, List.filter]
  have hr : pt_stat 1 stW 0 ∈ (ptlist_for cW.ptol 1 cW.mt_obj_list).1 := by
    rw [show cW.mt_obj_list = [stW] from rfl, ptlist_for_spec]
    simp [stationRow, hidx]
  exact ⟨hmem, hr, C10_n_skew_twice_skew cW 1 _ hmem _ hr⟩

theorem recip_injective : Function.Injective (fun f : ℚ => 1 / f) := by
  intro a b h
  simp only [one_div] at h
  exact inv_injective h

theorem allPeriods_nodup (l : List Station) : (computeAllPeriods l).2.Nodup := by
  rw [allPeriods_eq]
  exact ((List.nodup_reverse).mpr (allFreq_nodup l)).map recip_injective

theorem dictUpdate_append (d : List (ℚ × ℕ)) (k : ℚ) (v : ℕ)
    (hdis : ∀ p ∈ d, p.1 ≠ k) : dictUpdate d k v = d ++ [(k, v)] := by
  unfold dictUpdate
  rw [if_neg]
  intro h
  rw [List.any_eq_true] at h
  obtain ⟨p, hp, hpk⟩ := h
  exact hdis p hp (by simpa using hpk)

theorem statsStep_eq (c : EdiCollection) (pct : ℚ) (d : List (ℚ × ℕ))
    (aper : ℚ) (hdis : ∀ p ∈ d, p.1 ≠ aper) :
    statsStep c pct d aper =
      if retained c pct aper = true then
        d ++ [(aper, coverageCount c.mt_obj_list aper)]
      else d := by
  unfold statsStep retained
  by_cases hr : (100 * (coverageCount c.mt_obj_list aper : ℚ)) /
      (c.num_of_edifiles : ℚ) ≥ pct
  · rw [if_pos hr, if_pos (by simpa using hr), dictUpdate_append d aper _ hdis]
  · rw [if_neg hr, if_neg (by simpa using hr)]

theorem statsDict_fold (c : EdiCollection) (pct : ℚ) :
    ∀ (ps : List ℚ) (d : List (ℚ × ℕ)), ps.Nodup →
      (∀ aper ∈ ps, ∀ p ∈ d, p.1 ≠ aper) →
      ps.foldl (statsStep c pct) d =
        d ++ (ps.filter (retained c pct)).map
          (fun aper => (aper, coverageCount c.mt_obj_list aper)) := by
  intro ps
  induction ps with
  | nil =>
      intro d _ _
      simp
  | cons aper rest ih =>
      intro d hnd hdis
      rw [List.foldl_cons, statsStep_eq c pct d aper (hdis aper (by simp))]
      by_cases hr : retained c pct aper = true
      · rw [if_pos hr,
          ih (d ++ [(aper, coverageCount c.mt_obj_list aper)])
            (List.nodup_cons.mp hnd).2 ?_,
          List.filter_cons_of_pos hr]
        · simp
        · intro b hb p hp
          rcases List.mem_append.mp hp with hpd | hps
          · exact hdis b (List.mem_cons_of_mem _ hb) p hpd
          · have hpe : p = (aper, coverageCount c.mt_obj_list aper) := by
              simpa using hps
            subst hpe
            intro hcontra
            have hab : aper = b := hcontra
            exact (List.nodup_cons.mp hnd).1 (by rw [hab]; exact hb)
      · rw [if_neg hr,
          ih d (List.nodup_cons.mp hnd).2
            (fun b hb => hdis b (List.mem_cons_of_mem _ hb)),
          List.filter_cons_of_neg (by simpa using hr)]

theorem statsDict_eq (c : EdiCollection) (pct : ℚ)
    (hnd : c.all_periods.Nodup) :
    statsDict c pct =
      (c.all_periods.filter (retained c pct)).map
        (fun aper => (aper, coverageCount c.mt_obj_list aper)) := by
  have h := statsDict_fold c pct c.all_periods [] hnd (by simp)
  simpa [statsDict] using h

theorem cnt_trans : ∀ p q r : ℚ × ℕ, decide (q.2 ≤ p.2) = true →
    decide (r.2 ≤ q.2) = true → decide (r.2 ≤ p.2) = true := by
  intro p q r h1 h2
  simp only [decide_eq_true_eq] at *
  exact le_trans h2 h1

theorem cnt_total : ∀ p q : ℚ × ℕ,
    (decide (q.2 ≤ p.2) || decide (p.2 ≤ q.2)) = true := by
  intro p q
  simpa using le_total q.2 p.2

theorem sublist_pair_of_mem {α : Type} {a b : α} :
    ∀ {l : List α}, a ∈ l → b ∈ l → a ≠ b →
      [a, b].Sublist l ∨ [b, a].Sublist l := by
  intro l
  induction l with
  | nil =>
      intro ha _ _
      simp at ha
  | cons x t ih =>
      intro ha hb hne
      rcases List.mem_cons.mp ha with rfl | hat
      · have hbt : b ∈ t := by
          rcases List.mem_cons.mp hb with rfl | h
          · exact absurd rfl hne
          · exact h
        exact Or.inl (List.cons_sublist_cons.mpr (List.singleton_sublist.mpr hbt))
      · rcases List.mem_cons.mp hb with rfl | hbt
        · exact Or.inr (List.cons_sublist_cons.mpr (List.singleton_sublist.mpr hat))
        · rcases ih hat hbt hne with h | h
          · exact Or.inl (h.cons x)
          · exact Or.inr (h.cons x)

theorem sublist_both_orders {α : Type} {a b : α} :
    ∀ {l : List α}, l.Nodup → [a, b].Sublist l → [b, a].Sublist l → a = b := by
  intro l
  induction l with
  | nil =>
      intro _ h1 _
      simp at h1
  | cons x t ih =>
      intro hnd h1 h2
      by_cases hax : a = x
      · subst hax
        by_cases hba : b = a
        · exact hba.symm
        · have h2' : [b, a].Sublist t := by
            cases h2 with
            | cons _ h => exact h
            | cons₂ _ h => exact absurd rfl hba
          have hat : a ∈ t := h2'.subset (by simp)
          exact absurd hat (List.nodup_cons.mp hnd).1
      · have h1' : [a, b].Sublist t := by
          cases h1 with
          | cons _ h => exact h
          | cons₂ _ h => exact absurd rfl hax
        by_cases hbx : b = x
        · subst hbx
          have hbt : b ∈ t := h1'.subset (by simp)
          exact absurd hbt (List.nodup_cons.mp hnd).1
        · have h2' : [b, a].Sublist t := by
            cases h2 with
            | cons _ h => exact h
            | cons₂ _ h => exact absurd rfl hbx
          exact ih (List.nodup_cons.mp hnd).2 h1' h2'

theorem gps_perm_filter (c : EdiCollection) (pct : ℚ)
    (hnd : c.all_periods.Nodup) :
    (get_periods_by_stats c pct).Perm
      (c.all_periods.filter (retained c pct)) := by
  have hfst : (statsDict c pct).map (fun pc => pc.1) =
      c.all_periods.filter (retained c pct) := by
    rw [statsDict_eq c pct hnd, List.map_map]
    simp only [Function.comp_def]
    exact List.map_id' _
  have hperm := (List.mergeSort_perm (statsDict c pct)
    (fun p q => decide (q.2 ≤ p.2))).map (fun pc => pc.1)
  rw [hfst] at hperm
  exact hperm

/-- C2: for every constructed collection and threshold, the selected periods
come out sorted by non-increasing coverage count, and two selected periods
with equal counts keep the relative order they have in `all_periods` (the
dict preserves insertion order and Python's `sorted` is stable). -/
theorem C2_descending_counts_stable_ties
    (l : List Station) (ptol : ℚ) (c : EdiCollection)
    (hok : EdiCollection.build l ptol = Except.ok c) (percentage : ℚ) :
    ((get_periods_by_stats c percentage).map
        (fun aper => coverageCount c.mt_obj_list aper)).Pairwise (· ≥ ·) ∧
      ∀ p q : ℚ, [p, q].Sublist (get_periods_by_stats c percentage) →
        coverageCount c.mt_obj_list p = coverageCount c.mt_obj_list q →
        [p, q].Sublist c.all_periods := by
  obtain ⟨-, -, -, -, hp, -, -⟩ := build_ok hok
  have hnd : c.all_periods.Nodup := by
    rw [hp]
    exact allPeriods_nodup l
  have hsd := statsDict_eq c percentage hnd
  have hwf : ∀ pr ∈ statsDict c percentage,
      pr = (pr.1, coverageCount c.mt_obj_list pr.1) := by
    intro pr hpr
    rw [hsd] at hpr
    obtain ⟨a, -, rfl⟩ := List.mem_map.mp hpr
    rfl
  have hperm : ((statsDict c percentage).mergeSort
      (fun p q => decide (q.2 ≤ p.2))).Perm (statsDict c percentage) :=
    List.mergeSort_perm _ _
  have hsorted : ((statsDict c percentage).mergeSort
      (fun p q => decide (q.2 ≤ p.2))).Pairwise (fun pr qr => qr.2 ≤ pr.2) :=
    (List.sorted_mergeSort cnt_trans cnt_total _).imp
      (fun h => of_decide_eq_true h)
  have hsdnodup : (statsDict c percentage).Nodup := by
    rw [hsd]
    refine List.Nodup.map ?_ (hnd.filter _)
    intro u v huv
    exact congrArg Prod.fst huv
  constructor
  · show ((((statsDict c percentage).mergeSort
        (fun p q => decide (q.2 ≤ p.2))).map (fun pc => pc.1)).map
        (fun aper => coverageCount c.mt_obj_list aper)).Pairwise (· ≥ ·)
    rw [List.map_map, List.pairwise_map]
    refine List.Pairwise.imp_of_mem ?_ hsorted
    intro pr qr hprm hqrm hle
    have e1 : pr.2 = coverageCount c.mt_obj_list pr.1 :=
      congrArg Prod.snd (hwf pr (hperm.mem_iff.mp hprm))
    have e2 : qr.2 = coverageCount c.mt_obj_list qr.1 :=
      congrArg Prod.snd (hwf qr (hperm.mem_iff.mp hqrm))
    show coverageCount c.mt_obj_list pr.1 ≥ coverageCount c.mt_obj_list qr.1
    rw [← e1, ← e2]
    exact hle
  · intro p q hsub hcnt
    obtain ⟨l2, hl2sub, hl2eq⟩ := List.sublist_map_iff.mp hsub
    have hlen : l2.length = 2 := by
      have hc := congrArg List.length hl2eq
      simpa using hc.symm
    obtain ⟨P, Q, rfl⟩ := List.length_eq_two.mp hlen
    · obtain ⟨hp1, hq1⟩ : p = P.1 ∧ q = Q.1 := by simpa using hl2eq
      subst hp1
      subst hq1
      have hPm : P ∈ statsDict c percentage :=
        hperm.mem_iff.mp (hl2sub.subset (by simp))
      have hQm : Q ∈ statsDict c percentage :=
        hperm.mem_iff.mp (hl2sub.subset (by simp))
      have hPwf := hwf P hPm
      have hQwf := hwf Q hQm
      by_cases hpq : P.1 = Q.1
      · exfalso
        have hgnd : (get_periods_by_stats c percentage).Nodup :=
          ((gps_perm_filter c percentage hnd).nodup_iff).mpr
            (hnd.filter (retained c percentage))
        have hne2 := List.Pairwise.sublist hsub hgnd
        rw [List.pairwise_cons] at hne2
        exact (hne2.1 Q.1 (by simp)) hpq
      · have hPQ : P ≠ Q := fun he => hpq (congrArg Prod.fst he)
        rcases sublist_pair_of_mem hPm hQm hPQ with hord | hord
        · have hm1 : [P.1, Q.1].Sublist
              ((statsDict c percentage).map (fun pc => pc.1)) := by
            simpa using hord.map (fun pc => pc.1)
          rw [hsd, List.map_map] at hm1
          simp only [Function.comp_def] at hm1
          rw [List.map_id'] at hm1
          exact hm1.trans (List.filter_sublist _)
        · exfalso
          have hQPle : [Q, P].Pairwise
              (fun a b => (fun p q => decide (q.2 ≤ p.2)) a b = true) := by
            rw [List.pairwise_cons]
            refine ⟨?_, by simp⟩
            intro b hb
            rcases List.mem_singleton.mp hb with rfl
            rw [decide_eq_true_eq, congrArg Prod.snd hPwf,
              congrArg Prod.snd hQwf, hcnt]
          have hQPm : [Q, P].Sublist ((statsDict c percentage).mergeSort
              (fun p q => decide (q.2 ≤ p.2))) :=
            List.sublist_mergeSort cnt_trans cnt_total hQPle hord
          have hmnodup : ((statsDict c percentage).mergeSort
              (fun p q => decide (q.2 ≤ p.2))).Nodup :=
            (hperm.nodup_iff).mpr hsdnodup
          exact hPQ (sublist_both_orders hmnodup hl2sub hQPm)

theorem C2_witness :
    EdiCollection.build [stW] (1 / 20) = Except.ok cW ∧
      ((get_periods_by_stats cW 50).map
          (fun aper => coverageCount cW.mt_obj_list aper)).Pairwise (· ≥ ·) :=
  ⟨build_stW,
    (C2_descending_counts_stable_ties [stW] (1 / 20) cW build_stW 50).1⟩

/-- C3 (amended): at threshold 0 every period qualifies, so the result
contains exactly the elements of `all_periods`, but reordered by descending
coverage count (a permutation, not the identical list); at threshold 100 the
result contains exactly those periods whose reciprocal is approximately
present (via `is_it_in`) in every station's frequency list. -/
theorem C3_threshold_edge_cases
    (l : List Station) (ptol : ℚ) (c : EdiCollection)
    (hok : EdiCollection.build l ptol = Except.ok c) :
    (get_periods_by_stats c 0).Perm c.all_periods ∧
      ∀ aper : ℚ, aper ∈ get_periods_by_stats c 100 ↔
        aper ∈ c.all_periods ∧
          ∀ s ∈ c.mt_obj_list, is_it_in (1 / aper) s.freq = true := by
  obtain ⟨hml, hnum, -, -, hp, -, hne⟩ := build_ok hok
  have hnd : c.all_periods.Nodup := by
    rw [hp]
    exact allPeriods_nodup l
  have hnumpos : 0 < c.num_of_edifiles := by
    rw [hnum]
    exact List.length_pos.mpr hne
  have hnumQ : (0 : ℚ) < (c.num_of_edifiles : ℚ) := by
    exact_mod_cast hnumpos
  have hmlen : c.mt_obj_list.length = c.num_of_edifiles := by
    rw [hml, hnum]
  constructor
  · have h0 : c.all_periods.filter (retained c 0) = c.all_periods :=
      List.filter_eq_self.mpr (fun aper _ => by
        unfold retained
        rw [decide_eq_true_eq]
        positivity)
    have hperm := gps_perm_filter c 0 hnd
    rwa [h0] at hperm
  · intro aper
    have hle : coverageCount c.mt_obj_list aper ≤ c.mt_obj_list.length :=
      List.length_filter_le _ _
    have hret : retained c 100 aper = true ↔
        ∀ s ∈ c.mt_obj_list, is_it_in (1 / aper) s.freq = true := by
      unfold retained
      rw [decide_eq_true_eq, ge_iff_le, le_div_iff₀ hnumQ]
      constructor
      · intro h
        have h3 : c.num_of_edifiles ≤ coverageCount c.mt_obj_list aper := by
          have h4 : (c.num_of_edifiles : ℚ) ≤
              (coverageCount c.mt_obj_list aper : ℚ) := by linarith
          exact_mod_cast h4
        have h5 : coverageCount c.mt_obj_list aper = c.mt_obj_list.length :=
          le_antisymm hle (by rw [hmlen]; exact h3)
        exact List.filter_length_eq_length.mp h5
      · intro h
        have h5 : coverageCount c.mt_obj_list aper = c.mt_obj_list.length :=
          List.filter_length_eq_length.mpr h
        have h6 : c.num_of_edifiles ≤ coverageCount c.mt_obj_list aper := by
          rw [h5, hmlen]
        have h7 : (c.num_of_edifiles : ℚ) ≤
            (coverageCount c.mt_obj_list aper : ℚ) := by exact_mod_cast h6
        nlinarith
    rw [(gps_perm_filter c 100 hnd).mem_iff, List.mem_filter]
    constructor
    · rintro ⟨hmem, hr⟩
      exact ⟨hmem, hret.mp hr⟩
    · rintro ⟨hmem, hall⟩
      exact ⟨hmem, hret.mpr hall⟩

theorem C3_witness :
    EdiCollection.build [stW] (1 / 20) = Except.ok cW ∧
      (get_periods_by_stats cW 0).Perm cW.all_periods :=
  ⟨build_stW, (C3_threshold_edge_cases [stW] (1 / 20) cW build_stW).1⟩


theorem build_cCD : EdiCollection.build [stC, stD] (1 / 20) = Except.ok cCD :=
  rfl

/-- C3 counterexample: for two stations with frequency lists `[1]` and
`[1, 2]`, `all_periods = [1/2, 1]` but `get_periods_by_stats(0)` returns
`[1, 1/2]` — the same elements, reordered by descending coverage count
(period 1 is covered by 2 stations, period 1/2 by 1) — so the threshold-0
result is NOT the list `all_periods` itself. -/
theorem C3_counterexample :
    EdiCollection.build [stC, stD] (1 / 20) = Except.ok cCD ∧
      cCD.all_periods = [1 / 2, 1] ∧
      get_periods_by_stats cCD 0 = [1, 1 / 2] ∧
      get_periods_by_stats cCD 0 ≠ cCD.all_periods := by
  have h1 : cCD.all_periods = [1 / 2, 1] := by
    norm_num [cCD, computeAllPeriods, all_frequencies_of, pySorted,
      pySortedRev, List.mergeSort, List.merge, List.dedup, stC, stD]
  have h2 : get_periods_by_stats cCD 0 = [1, 1 / 2] := by
    norm_num [get_periods_by_stats, statsDict, statsStep, coverageCount,
      is_it_in, dictUpdate, cCD, computeAllPeriods, all_frequencies_of,
      pySorted, pySortedRev, List.mergeSort, List.merge, List.dedup, stC,
      stD, abs_lt]
  refine ⟨rfl, h1, h2, ?_⟩
  rw [h1, h2]
  intro hcontra
  have := congrArg (fun l => l.headI) hcontra
  norm_num at this
